import Mathlib

/-!
Shallow embedding of the zone/record domain model of python-powerdns
(src/powerdns/interface.py), covering RRSet construction and
canonicalization, the suggest_zone suffix search, and the lazy caches of
PDNSZone.details and PDNSServer.zones together with the mutating calls
that touch them.  DNS names and record contents are modelled as lists of
characters; Python dicts with string keys as association lists; Python
exceptions as an explicit error type threaded through Except.
-/

namespace PowerDNS

variable {D R : Type}

/-- A primitive Python value stored in a record dict (string or bool). -/
inductive PyVal where
  | str (s : List Char)
  | bool (b : Bool)
deriving DecidableEq

/-- A Python dict with string keys, as an association list in insertion
order (Python dicts preserve insertion order and have unique keys). -/
abbrev PyDict := List (String × PyVal)

/-- Lookup a key in a dict (first occurrence), Python d.get(k) / d[k]. -/
def pyGet : PyDict → String → Option PyVal
  | [], _ => none
  | (k2, v2) :: rest, k => if k2 = k then some v2 else pyGet rest k

/-- Python d[k] = v: overwrite the value in place if the key exists,
else append the new pair at the end. -/
def pySet : PyDict → String → PyVal → PyDict
  | [], k, v => [(k, v)]
  | (k2, v2) :: rest, k, v =>
      if k2 = k then (k, v) :: rest else (k2, v2) :: pySet rest k v

/-- Python: k in d.keys(). -/
def hasKey (d : PyDict) (k : String) : Bool :=
  d.any (fun kv => kv.1 = k)

/-- Python: the dict has some key other than content and disabled. -/
def hasExtraKey (d : PyDict) : Bool :=
  d.any (fun kv => kv.1 ≠ "content" && kv.1 ≠ "disabled")

/-- The input forms accepted for one record by RRSet.__init__
(interface.py lines 478-494): a structured dict, a 2-element
list/tuple (content, disabled), or a bare content value. -/
inductive RecordInput where
  | dict (d : PyDict)
  | pair (c d : PyVal)
  | atom (v : PyVal)
deriving DecidableEq

/-- The Python exceptions the modelled code can raise. -/
inductive PyErr where
  | canonicalError (name : List Char)
  | valueErrorMoreKeys (records : List RecordInput)
  | valueErrorNoContent (records : List RecordInput)
  | attributeError
  | keyError (k : String)
  | transportError (msg : String)
deriving DecidableEq

/-- One record normalization step of RRSet.__init__ (interface.py lines
478-494).  The dict branch checks set(record.keys()) > {content,
disabled} (STRICT superset), then requires the content key, then
defaults disabled to False and keeps the dict itself; a list/tuple
contributes (record[0], record[1]); anything else is a bare content.
The whole records argument is carried into the ValueError messages, as
in the source f-strings. -/
def normalizeRecord (records : List RecordInput) (record : RecordInput) :
    Except PyErr PyDict :=
  match record with
  | .dict d =>
      if hasKey d "content" && hasKey d "disabled" && hasExtraKey d then
        .error (.valueErrorMoreKeys records)
      else if ¬ hasKey d "content" then
        .error (.valueErrorNoContent records)
      else if ¬ hasKey d "disabled" then
        .ok (pySet d "disabled" (PyVal.bool false))
      else .ok d
  | .pair c d => .ok [("content", c), ("disabled", d)]
  | .atom v => .ok [("content", v), ("disabled", PyVal.bool false)]

/-- The RRSet object after construction: the dict keys name, type,
changetype, ttl, records, comments set by RRSet.__init__
(interface.py lines 467-498). -/
structure RRSet where
  name : List Char
  rtype : String
  changetype : String
  ttl : Nat
  records : List PyDict
  comments : List PyDict
deriving DecidableEq

/-- The record loop of RRSet.__init__: normalize each input in order,
aborting at the first ValueError, and collect the self['records']
entries in append order. -/
def normRecords (records : List RecordInput) : List RecordInput → Except PyErr (List PyDict)
  | [] => .ok []
  | r :: rest =>
      match normalizeRecord records r with
      | .error e => .error e
      | .ok d =>
          match normRecords records rest with
          | .error e => .error e
          | .ok ds => .ok (d :: ds)

/-- RRSet.__init__ (interface.py lines 467-498): normalize the records
in order, aborting at the first ValueError; comments defaults to the
empty list when None is passed. -/
def mkRRSet (name : List Char) (rtype : String) (records : List RecordInput)
    (ttl : Nat) (changetype : String) (comments : Option (List PyDict)) :
    Except PyErr RRSet :=
  match normRecords records records with
  | .error e => .error e
  | .ok recs =>
      .ok { name := name, rtype := rtype, changetype := changetype, ttl := ttl,
            records := recs, comments := comments.getD [] }

/-- The per-record content rewrite inside RRSet.ensure_canonical
(interface.py lines 543-548): record['content'] += ".%s" % zone when
the content does not end with a dot.  A missing content key raises
KeyError and a non-string content raises AttributeError in Python. -/
def canonicalContent (zone : List Char) (rec : PyDict) : Except PyErr PyDict :=
  match pyGet rec "content" with
  | some (PyVal.str c) =>
      if ['.'] <:+ c then .ok rec
      else .ok (pySet rec "content" (PyVal.str (c ++ '.' :: zone)))
  | some (PyVal.bool _) => .error .attributeError
  | none => .error (.keyError "content")

/-- The name rewrite inside RRSet.ensure_canonical (interface.py lines
540-542): self['name'] += ".%s" % zone when the name does not end with
a dot. -/
def canonName (name zone : List Char) : List Char :=
  if ¬ (['.'] <:+ name) then name ++ '.' :: zone else name

/-- The CNAME branch loop of RRSet.ensure_canonical: rewrite each
record content in order, stopping at the first Python exception. -/
def canonContents (zone : List Char) : List PyDict → Except PyErr (List PyDict)
  | [] => .ok []
  | rec :: rest =>
      match canonicalContent zone rec with
      | .error e => .error e
      | .ok r2 =>
          match canonContents zone rest with
          | .error e => .error e
          | .ok rs => .ok (r2 :: rs)

/-- RRSet.ensure_canonical (interface.py lines 525-548): reject a
non-canonical zone with PDNSCanonicalError(zone); append "." + zone to a
non-canonical name; for CNAME rrsets rewrite each non-canonical record
content the same way. -/
def ensure_canonical (rr : RRSet) (zone : List Char) : Except PyErr RRSet :=
  if ¬ (['.'] <:+ zone) then .error (.canonicalError zone)
  else if rr.rtype = "CNAME" then
    match canonContents zone rr.records with
    | .error e => .error e
    | .ok recs => .ok { rr with name := canonName rr.name zone, records := recs }
  else .ok { rr with name := canonName rr.name zone }

/-- A zone object as seen by suggest_zone and the server zone cache: only
its name matters to the modelled logic (the api_client, url and api_data
fields of PDNSZone are transport plumbing, out of scope). -/
structure PDNSZone where
  name : List Char
deriving DecidableEq

/-- One iteration of the suggest_zone loop body (interface.py lines
240-245): on a candidate (r_name ends with "." + zone.name), set
best_match if it is None, then overwrite it only on strictly greater
name length.  A PDNSZone object is always truthy in Python. -/
def suggestStep (rName : List Char) (best : Option PDNSZone) (z : PDNSZone) :
    Option PDNSZone :=
  if ('.' :: z.name) <:+ rName then
    let b1 := if best.isSome then best else some z
    match b1 with
    | some b => if z.name.length > b.name.length then some z else b1
    | none => none
  else best

/-- PDNSServer.suggest_zone (interface.py lines 222-247), over the
server's listed zones: reject a non-canonical record name with
PDNSCanonicalError, else fold the loop body over the zone list starting
from best_match = None. -/
def suggest_zone (zones : List PDNSZone) (rName : List Char) :
    Except PyErr (Option PDNSZone) :=
  if ¬ (['.'] <:+ rName) then .error (.canonicalError rName)
  else .ok (zones.foldl (suggestStep rName) none)

/-- The candidate zones of the spec for a record name: those whose name,
preceded by a dot, is a suffix of the record name. -/
def zoneCandidates (zones : List PDNSZone) (rName : List Char) : List PDNSZone :=
  zones.filter (fun z => decide (('.' :: z.name) <:+ rName))

/-- Stated from the spec for the C1 comparison: the first zone in listing
order whose name length is maximal among all listed zones. -/
def firstLongest (l : List PDNSZone) : Option PDNSZone :=
  l.find? (fun z => l.all (fun w => decide (w.name.length ≤ z.name.length)))

/-- The mutable state of a PDNSZone object that the modelled methods
touch: the _details cache (None modelled as none) and a count of GET
fetches already issued to the transport, used to index the transport
stream.  D is the type of the parsed JSON details blob. -/
structure ZoneSt (D : Type) where
  details : Option D
  fetchCount : Nat
deriving DecidableEq

/-- The PDNSZone.details property (interface.py lines 353-360).  The
transport collaborator is a stream of responses, the n-th fetch
returning transport n; truthy is Python truthiness on the parsed blob.
The guard is the source's "if not self._details", so a cached falsy
blob triggers a re-fetch exactly as None does. -/
def zone_details (truthy : D → Bool) (transport : Nat → D) (s : ZoneSt D) :
    D × ZoneSt D :=
  let cached : Option D :=
    match s.details with
    | some d => if truthy d then some d else none
    | none => none
  match cached with
  | some d => (d, s)
  | none =>
      let d := transport s.fetchCount
      (d, { details := some d, fetchCount := s.fetchCount + 1 })

/-- The PDNSZone.records property (interface.py lines 362-366):
self.details['rrsets'], modelled with an explicit projection out of the
details blob. -/
def zone_records (truthy : D → Bool) (transport : Nat → D)
    (rrsetsOf : D → R) (s : ZoneSt D) : R × ZoneSt D :=
  let p := zone_details truthy transport s
  (rrsetsOf p.1, p.2)

/-- The rrset loop of PDNSZone.create_records / delete_records
(interface.py lines 394-396 and 410-412): canonicalize each rrset
against the zone name and force its changetype to ct, stopping at the
first exception. -/
def canonForce (zoneName : List Char) (ct : String) : List RRSet → Except PyErr (List RRSet)
  | [] => .ok []
  | rr :: rest =>
      match ensure_canonical rr zoneName with
      | .error e => .error e
      | .ok rr2 =>
          match canonForce zoneName ct rest with
          | .error e => .error e
          | .ok rs => .ok ({ rr2 with changetype := ct } :: rs)

/-- PDNSZone.create_records (interface.py lines 386-400): canonicalize
every rrset against the zone name and force changetype REPLACE (an
exception in that loop propagates before the cache is touched), then
set _details = None and issue the PATCH whose outcome patchResp is
supplied by the transport collaborator.  The returned triple is the
method result, the new object state, and the rrsets list submitted as
the PATCH body. -/
def create_records (zoneName : List Char) (rrsets : List RRSet)
    (patchResp : Except PyErr R) (s : ZoneSt D) :
    Except PyErr R × ZoneSt D × List RRSet :=
  match canonForce zoneName "REPLACE" rrsets with
  | .error e => (.error e, s, rrsets)
  | .ok canon => (patchResp, { s with details := none }, canon)

/-- PDNSZone.delete_records (interface.py lines 402-416): as
create_records but forcing changetype DELETE. -/
def delete_records (zoneName : List Char) (rrsets : List RRSet)
    (patchResp : Except PyErr R) (s : ZoneSt D) :
    Except PyErr R × ZoneSt D × List RRSet :=
  match canonForce zoneName "DELETE" rrsets with
  | .error e => (.error e, s, rrsets)
  | .ok canon => (patchResp, { s with details := none }, canon)

/-- The mutable state of a PDNSServer object that the modelled methods
touch: the _zones cache and the count of GET /zones fetches issued. -/
structure ServerSt where
  zones : Option (List PDNSZone)
  fetchCount : Nat
deriving DecidableEq

/-- The PDNSServer.zones property (interface.py lines 137-154).  The
guard is the source's "if not self._zones": a cached empty list is
falsy in Python and triggers a re-fetch exactly as None does. -/
def server_zones (transport : Nat → List PDNSZone) (s : ServerSt) :
    List PDNSZone × ServerSt :=
  let cached : Option (List PDNSZone) :=
    match s.zones with
    | some zs => if zs.isEmpty then none else some zs
    | none => none
  match cached with
  | some zs => (zs, s)
  | none =>
      let zs := transport s.fetchCount
      (zs, { zones := some zs, fetchCount := s.fetchCount + 1 })

/-- PDNSServer.create_zone (interface.py lines 252-295), after the POST
or PATCH has produced the parsed response resp (payload assembly and the
update lookup are transport plumbing): only under "if zone_data:" — a
truthy response — is the _zones cache reset and a new PDNSZone returned;
a falsy response leaves the cache untouched and returns None. -/
def create_zone (resp : D) (truthy : D → Bool) (mkZ : D → PDNSZone)
    (s : ServerSt) : Option PDNSZone × ServerSt :=
  if truthy resp then (some (mkZ resp), { s with zones := none })
  else (none, s)

/-- PDNSServer.delete_zone (interface.py lines 297-306): reset _zones to
None first, then return the DELETE outcome (so the cache is cleared even
when the transport call fails). -/
def delete_zone (resp : Except PyErr R) (s : ServerSt) :
    Except PyErr R × ServerSt :=
  (resp, { s with zones := none })

/-- PDNSServer.restore_zone (interface.py lines 309-325), after the
backup file has been read (file handling is out of scope): _zones is
reset to None before the POST, then a truthy response yields a new
PDNSZone and a falsy one yields None, the cache cleared either way. -/
def restore_zone (resp : D) (truthy : D → Bool) (mkZ : D → PDNSZone)
    (s : ServerSt) : Option PDNSZone × ServerSt :=
  let s2 : ServerSt := { s with zones := none }
  if truthy resp then (some (mkZ resp), s2) else (none, s2)

/-! ### Helper lemmas about dicts, suffixes and the canonicalization loops -/

theorem pyGet_pySet_self (d : PyDict) (k : String) (v : PyVal) :
    pyGet (pySet d k v) k = some v := by
  induction d with
  | nil => simp [pySet, pyGet]
  | cons kv rest ih =>
      obtain ⟨k2, v2⟩ := kv
      by_cases h : k2 = k
      · simp [pySet, pyGet, h]
      · simp [pySet, pyGet, h, ih]

theorem pyGet_pySet_other (d : PyDict) (k k2 : String) (v : PyVal)
    (h : k2 ≠ k) : pyGet (pySet d k v) k2 = pyGet d k2 := by
  have h' : ¬ k = k2 := fun hh => h hh.symm
  induction d with
  | nil => simp [pySet, pyGet, h']
  | cons kv rest ih =>
      obtain ⟨k3, v3⟩ := kv
      by_cases h3 : k3 = k
      · subst h3
        simp [pySet, pyGet, h']
      · simp only [pySet, if_neg h3, pyGet]
        rw [ih]

theorem pyGet_eq_none_of_hasKey_eq_false (d : PyDict) (k : String)
    (h : hasKey d k = false) : pyGet d k = none := by
  induction d with
  | nil => simp [pyGet]
  | cons kv rest ih =>
      simp only [hasKey, List.any_cons, Bool.or_eq_false_iff] at h
      obtain ⟨k2, v2⟩ := kv
      have hk2 : ¬ k2 = k := by
        intro hh
        simp [hh] at h
      simp only [pyGet, if_neg hk2]
      exact ih (by simpa [hasKey] using h.2)

theorem pyGet_isSome_of_hasKey (d : PyDict) (k : String)
    (h : hasKey d k = true) : ∃ v, pyGet d k = some v := by
  induction d with
  | nil => simp [hasKey] at h
  | cons kv rest ih =>
      obtain ⟨k2, v2⟩ := kv
      by_cases hk : k2 = k
      · exact ⟨v2, by simp [pyGet, hk]⟩
      · simp only [hasKey, List.any_cons, Bool.or_eq_true] at h
        rcases h with h | h
        · exact absurd (by simpa using h) hk
        · obtain ⟨v, hv⟩ := ih (by simpa [hasKey] using h)
          exact ⟨v, by simp [pyGet, hk, hv]⟩

theorem dot_suffix_concat (l z : List Char) (hz : ['.'] <:+ z) :
    ['.'] <:+ l ++ '.' :: z :=
  (hz.trans (List.suffix_cons '.' z)).trans (List.suffix_append l ('.' :: z))

theorem canonName_suffix (n z : List Char) (hz : ['.'] <:+ z) :
    ['.'] <:+ canonName n z := by
  by_cases h : ['.'] <:+ n
  · rw [canonName, if_neg (not_not_intro h)]
    exact h
  · rw [canonName, if_pos h]
    exact dot_suffix_concat n z hz

theorem canonName_of_canonical (n z : List Char) (h : ['.'] <:+ n) :
    canonName n z = n := by
  rw [canonName, if_neg (not_not_intro h)]

/-- Stated from the spec for C2: a record content string that is not
canonical is rewritten to content + "." + zone, and a canonical one is
kept unchanged. -/
def specContentCanon (z : List Char) (rec : PyDict) : PyDict :=
  match pyGet rec "content" with
  | some (PyVal.str c) =>
      if ['.'] <:+ c then rec
      else pySet rec "content" (PyVal.str (c ++ '.' :: z))
  | some (PyVal.bool _) => rec
  | none => rec

theorem canonicalContent_eq_spec (z : List Char) (rec : PyDict)
    (h : ∃ c, pyGet rec "content" = some (PyVal.str c)) :
    canonicalContent z rec = .ok (specContentCanon z rec) := by
  obtain ⟨c, hc⟩ := h
  by_cases hcc : ['.'] <:+ c
  · simp [canonicalContent, specContentCanon, hc, hcc]
  · simp [canonicalContent, specContentCanon, hc, hcc]

theorem canonContents_eq_spec (z : List Char) (l : List PyDict)
    (h : ∀ rec ∈ l, ∃ c, pyGet rec "content" = some (PyVal.str c)) :
    canonContents z l = .ok (l.map (specContentCanon z)) := by
  induction l with
  | nil => simp [canonContents]
  | cons rec rest ih =>
      rw [canonContents, canonicalContent_eq_spec z rec (h rec (by simp)),
        ih (fun r hr => h r (by simp [hr]))]
      rfl

theorem canonicalContent_fix (z : List Char) (rec rec2 : PyDict)
    (hz : ['.'] <:+ z) (h : canonicalContent z rec = .ok rec2) :
    canonicalContent z rec2 = .ok rec2 := by
  cases hg : pyGet rec "content" with
  | none => simp [canonicalContent, hg] at h
  | some v =>
      cases v with
      | bool b => simp [canonicalContent, hg] at h
      | str c =>
          by_cases hcc : ['.'] <:+ c
          · simp only [canonicalContent, hg, if_pos hcc, Except.ok.injEq] at h
            subst h
            simp [canonicalContent, hg, hcc]
          · simp only [canonicalContent, hg, if_neg hcc, Except.ok.injEq] at h
            subst h
            simp [canonicalContent, pyGet_pySet_self,
              dot_suffix_concat c z hz]

theorem canonContents_fix (z : List Char) (l l2 : List PyDict)
    (hz : ['.'] <:+ z) (h : canonContents z l = .ok l2) :
    canonContents z l2 = .ok l2 := by
  induction l generalizing l2 with
  | nil =>
      simp only [canonContents, Except.ok.injEq] at h
      subst h
      simp [canonContents]
  | cons rec rest ih =>
      rw [canonContents] at h
      cases h1 : canonicalContent z rec with
      | error e => rw [h1] at h; simp at h
      | ok r2 =>
          rw [h1] at h
          cases h2 : canonContents z rest with
          | error e => rw [h2] at h; simp at h
          | ok rs =>
              rw [h2] at h
              simp only [Except.ok.injEq] at h
              subst h
              rw [canonContents, canonicalContent_fix z rec r2 hz h1,
                ih rs h2]

/-! ### Claim theorems -/

/-- Claim C2: for every canonical zone name z and every RRSet whose
record contents are strings, ensure_canonical(z) rewrites a name not
ending with a dot to name + "." + z and keeps a canonical name; when
the type is CNAME each record content not ending with a dot becomes
content + "." + z and canonical contents are kept; non-CNAME records
are untouched. -/
theorem ensure_canonical_rewrite (rr : RRSet) (z : List Char)
    (hz : ['.'] <:+ z)
    (hrec : rr.rtype = "CNAME" →
      ∀ rec ∈ rr.records, ∃ c, pyGet rec "content" = some (PyVal.str c)) :
    ensure_canonical rr z = .ok { rr with
      name := if ['.'] <:+ rr.name then rr.name else rr.name ++ '.' :: z,
      records := if rr.rtype = "CNAME"
                 then rr.records.map (specContentCanon z)
                 else rr.records } := by
  have hname : canonName rr.name z
      = if ['.'] <:+ rr.name then rr.name else rr.name ++ '.' :: z := by
    by_cases h : ['.'] <:+ rr.name
    · rw [canonName_of_canonical _ _ h, if_pos h]
    · rw [canonName, if_pos h, if_neg h]
  rw [ensure_canonical, if_neg (not_not_intro hz)]
  by_cases hc : rr.rtype = "CNAME"
  · rw [if_pos hc, canonContents_eq_spec z rr.records (hrec hc), hname,
      if_pos hc]
  · rw [if_neg hc, hname, if_neg hc]

/-- Claim C2 witness: a CNAME RRSet with a relative name and one
relative and one canonical content against zone example.org. -/
theorem ensure_canonical_rewrite_witness :
    (['.'] <:+ "example.org.".toList) ∧
    (∀ rec ∈ [[("content", PyVal.str "target".toList)],
              [("content", PyVal.str "abs.tld.".toList)]],
      ∃ c, pyGet rec "content" = some (PyVal.str c)) ∧
    ensure_canonical
      ⟨"www".toList, "CNAME", "REPLACE", 3600,
        [[("content", PyVal.str "target".toList)],
         [("content", PyVal.str "abs.tld.".toList)]], []⟩
      "example.org.".toList
    = .ok { name := if ['.'] <:+ "www".toList then "www".toList
                    else "www".toList ++ '.' :: "example.org.".toList,
            rtype := "CNAME", changetype := "REPLACE", ttl := 3600,
            records := if "CNAME" = "CNAME"
              then [[("content", PyVal.str "target".toList)],
                    [("content", PyVal.str "abs.tld.".toList)]].map
                     (specContentCanon "example.org.".toList)
              else [[("content", PyVal.str "target".toList)],
                    [("content", PyVal.str "abs.tld.".toList)]],
            comments := [] } := by
  refine ⟨by decide, ?_, ?_⟩
  · intro rec hrec
    simp only [List.mem_cons, List.not_mem_nil, or_false] at hrec
    rcases hrec with rfl | rfl
    · exact ⟨"target".toList, rfl⟩
    · exact ⟨"abs.tld.".toList, rfl⟩
  · exact ensure_canonical_rewrite _ _ (by decide)
      (fun _ rec hrec => by
        simp only [List.mem_cons, List.not_mem_nil, or_false] at hrec
        rcases hrec with rfl | rfl
        · exact ⟨"target".toList, rfl⟩
        · exact ⟨"abs.tld.".toList, rfl⟩)

/-- Claim C6: a non-canonical zone argument makes ensure_canonical
raise PDNSCanonicalError carrying the zone, whatever the RRSet's own
name, and a non-canonical record name makes suggest_zone raise
PDNSCanonicalError carrying that name. -/
theorem canonical_error_raised (rr : RRSet) (z : List Char)
    (zones : List PDNSZone) (r : List Char)
    (hz : ¬ (['.'] <:+ z)) (hr : ¬ (['.'] <:+ r)) :
    ensure_canonical rr z = .error (.canonicalError z) ∧
    suggest_zone zones r = .error (.canonicalError r) := by
  constructor
  · rw [ensure_canonical, if_pos hz]
  · rw [suggest_zone, if_pos hr]

/-- Claim C6 witness: zone and record name lacking the trailing dot. -/
theorem canonical_error_raised_witness :
    (¬ (['.'] <:+ "example.org".toList)) ∧
    (¬ (['.'] <:+ "a.example.org".toList)) ∧
    (ensure_canonical
        ⟨"www.example.org.".toList, "A", "REPLACE", 3600, [], []⟩
        "example.org".toList
      = .error (.canonicalError "example.org".toList) ∧
    suggest_zone [⟨"example.org.".toList⟩] "a.example.org".toList
      = .error (.canonicalError "a.example.org".toList)) :=
  ⟨by decide, by decide,
    canonical_error_raised _ _ _ _ (by decide) (by decide)⟩

/-- Claim C9: ensure_canonical is idempotent on its success results:
a second application to the rrset produced by a successful first
application returns that rrset unchanged. -/
theorem ensure_canonical_idem (rr rr' : RRSet) (z : List Char)
    (h : ensure_canonical rr z = .ok rr') :
    ensure_canonical rr' z = .ok rr' := by
  have hz : ['.'] <:+ z := by
    by_contra hz
    rw [ensure_canonical, if_pos hz] at h
    simp at h
  rw [ensure_canonical, if_neg (not_not_intro hz)] at h
  rw [ensure_canonical, if_neg (not_not_intro hz)]
  by_cases hc : rr.rtype = "CNAME"
  · rw [if_pos hc] at h
    cases hm : canonContents z rr.records with
    | error e => rw [hm] at h; simp at h
    | ok recs =>
        rw [hm] at h
        simp only [Except.ok.injEq] at h
        subst h
        simp only [hc, if_pos, canonContents_fix z rr.records recs hz hm,
          canonName_of_canonical _ z (canonName_suffix rr.name z hz)]
  · rw [if_neg hc] at h
    simp only [Except.ok.injEq] at h
    subst h
    simp [hc, canonName_of_canonical _ z (canonName_suffix rr.name z hz)]

/-- Claim C9 witness: applying ensure_canonical twice to a concrete
CNAME rrset yields the result of the first application both times. -/
theorem ensure_canonical_idem_witness :
    ensure_canonical
        ⟨"www".toList, "CNAME", "REPLACE", 3600,
          [[("content", PyVal.str "t".toList)]], []⟩ "tld.".toList
      = .ok ⟨"www.tld.".toList, "CNAME", "REPLACE", 3600,
          [[("content", PyVal.str "t.tld.".toList)]], []⟩ ∧
    ensure_canonical
        ⟨"www.tld.".toList, "CNAME", "REPLACE", 3600,
          [[("content", PyVal.str "t.tld.".toList)]], []⟩ "tld.".toList
      = .ok ⟨"www.tld.".toList, "CNAME", "REPLACE", 3600,
          [[("content", PyVal.str "t.tld.".toList)]], []⟩ := by
  constructor
  · rfl
  · exact ensure_canonical_idem
      ⟨"www".toList, "CNAME", "REPLACE", 3600,
        [[("content", PyVal.str "t".toList)]], []⟩
      ⟨"www.tld.".toList, "CNAME", "REPLACE", 3600,
        [[("content", PyVal.str "t.tld.".toList)]], []⟩
      "tld.".toList (by rfl)

/-- Claim C3, evaluation at the failing input: the structured record
dict with key set content and foo — neither content alone nor content
with disabled — is accepted by RRSet construction because the source's
strict-superset test set(record.keys()) > set(content, disabled) is
false when disabled is absent; the stray key foo is even kept in the
stored record.  The claim (and the source's own docstring and error
message) require a ValidationError here. -/
theorem rrset_extra_key_accepted :
    mkRRSet "test".toList "TXT"
      [RecordInput.dict [("content", PyVal.str "baz".toList),
                         ("foo", PyVal.str "bar".toList)]]
      3600 "REPLACE" none
    = .ok ⟨"test".toList, "TXT", "REPLACE", 3600,
        [[("content", PyVal.str "baz".toList),
          ("foo", PyVal.str "bar".toList),
          ("disabled", PyVal.bool false)]], []⟩ := by rfl

/-- The (content, disabled) reading of one stored record dict. -/
def recordPair (rec : PyDict) : Option PyVal × Option PyVal :=
  (pyGet rec "content", pyGet rec "disabled")

/-- Stated from the spec for C7: the claimed normalized (content,
disabled) pair of one record input — a bare value keeps its content
with disabled false, a pair is taken apart, a structured dict keeps its
content with disabled defaulted to false when absent. -/
def claimedPair : RecordInput → Option PyVal × Option PyVal
  | .atom v => (some v, some (PyVal.bool false))
  | .pair c d => (some c, some d)
  | .dict d =>
      (pyGet d "content", some ((pyGet d "disabled").getD (PyVal.bool false)))

/-- An allowed record input per the spec: structured dicts carry the
content key and no key outside content and disabled. -/
def allowedRec : RecordInput → Bool
  | .dict d => hasKey d "content" && !(hasExtraKey d)
  | .pair _ _ => true
  | .atom _ => true

theorem normRecords_allowed (records : List RecordInput)
    (l : List RecordInput) (h : ∀ r ∈ l, allowedRec r = true) :
    ∃ ds, normRecords records l = .ok ds ∧
      ds.map recordPair = l.map claimedPair := by
  induction l with
  | nil => exact ⟨[], rfl, rfl⟩
  | cons r rest ih =>
      obtain ⟨ds, hds, hmap⟩ := ih (fun x hx => h x (by simp [hx]))
      have hr := h r (by simp)
      have hone : ∃ d, normalizeRecord records r = .ok d ∧
          recordPair d = claimedPair r := by
        cases r with
        | atom v => exact ⟨_, rfl, rfl⟩
        | pair c dd => exact ⟨_, rfl, rfl⟩
        | dict d0 =>
            simp only [allowedRec, Bool.and_eq_true, Bool.not_eq_true'] at hr
            obtain ⟨hck, hek⟩ := hr
            by_cases hdk : hasKey d0 "disabled" = true
            · refine ⟨d0, ?_, ?_⟩
              · simp [normalizeRecord, hck, hdk, hek]
              · obtain ⟨v, hv⟩ := pyGet_isSome_of_hasKey d0 "disabled" hdk
                simp [recordPair, claimedPair, hv]
            · have hdk2 : hasKey d0 "disabled" = false := by simpa using hdk
              refine ⟨pySet d0 "disabled" (PyVal.bool false), ?_, ?_⟩
              · simp [normalizeRecord, hck, hdk2, hek]
              · simp [recordPair, claimedPair, pyGet_pySet_self,
                  pyGet_pySet_other d0 "disabled" "content" (PyVal.bool false)
                    (by decide),
                  pyGet_eq_none_of_hasKey_eq_false d0 "disabled" hdk2]
      obtain ⟨d, hd, hpair⟩ := hone
      exact ⟨d :: ds, by rw [normRecords, hd, hds], by simp [hmap, hpair]⟩

/-- Claim C7: for inputs that are bare values, pairs, or allowed
structured dicts, RRSet construction succeeds and reading back the
records field yields the claimed normalized (content, disabled) pairs
in input order. -/
theorem rrset_records_roundtrip (name : List Char)
    (rtype changetype : String) (ttl : Nat)
    (comments : Option (List PyDict)) (inputs : List RecordInput)
    (hin : ∀ r ∈ inputs, allowedRec r = true) :
    ∃ rr, mkRRSet name rtype inputs ttl changetype comments = .ok rr ∧
      rr.records.map recordPair = inputs.map claimedPair := by
  obtain ⟨ds, hds, hmap⟩ := normRecords_allowed inputs inputs hin
  refine ⟨{ name := name, rtype := rtype, changetype := changetype,
            ttl := ttl, records := ds, comments := comments.getD [] },
    ?_, hmap⟩
  rw [mkRRSet, hds]

/-- Claim C7 witness: the spec's three sample inputs — a content-only
dict, the pair (x, true) and a bare string. -/
theorem rrset_records_roundtrip_witness :
    (∀ r ∈ [RecordInput.dict [("content", PyVal.str "baz".toList)],
            RecordInput.pair (PyVal.str "x".toList) (PyVal.bool true),
            RecordInput.atom (PyVal.str "plain".toList)],
      allowedRec r = true) ∧
    (∃ rr, mkRRSet "rec".toList "TXT"
        [RecordInput.dict [("content", PyVal.str "baz".toList)],
         RecordInput.pair (PyVal.str "x".toList) (PyVal.bool true),
         RecordInput.atom (PyVal.str "plain".toList)]
        3600 "REPLACE" none = .ok rr ∧
      rr.records.map recordPair
        = [RecordInput.dict [("content", PyVal.str "baz".toList)],
           RecordInput.pair (PyVal.str "x".toList) (PyVal.bool true),
           RecordInput.atom (PyVal.str "plain".toList)].map claimedPair) :=
  ⟨by decide, rrset_records_roundtrip _ _ _ _ _ _ (by decide)⟩

/-- Claim C4 counterexample: the transport returns an empty (falsy)
details blob; after the first read the cache is populated (it holds
some empty blob), yet the second read issues a second fetch, because
the source guards with Python truthiness (if not self._details) rather
than a None test.  The same happens for a server whose zone list is
empty.  This refutes the claim's "for every possible transport
response". -/
theorem cache_refetch_on_falsy_cex :
    ((zone_details (fun d : List Nat => !d.isEmpty) (fun _ => [])
        (⟨none, 0⟩ : ZoneSt (List Nat))).2.details = some [] ∧
     (zone_details (fun d : List Nat => !d.isEmpty) (fun _ => [])
        (zone_details (fun d : List Nat => !d.isEmpty) (fun _ => [])
          (⟨none, 0⟩ : ZoneSt (List Nat))).2).2.fetchCount = 2) ∧
    (server_zones (fun _ => [])
        (server_zones (fun _ => []) ⟨none, 0⟩).2).2.fetchCount = 2 :=
  ⟨⟨rfl, rfl⟩, rfl⟩

/-- Claim C4 amended: once a Zone's details cache holds a truthy blob,
every subsequent details or records read returns that same cached
value and issues no further fetch; once a Server's zones cache holds a
nonempty list, every subsequent zones read returns the same list and
issues no further fetch.  (With a falsy cached value the source
re-fetches, see the counterexample.) -/
theorem caches_stable (truthy : D → Bool) (transport : Nat → D)
    (rrsetsOf : D → R) (s : ZoneSt D) (d : D)
    (transportZ : Nat → List PDNSZone) (t : ServerSt) (zs : List PDNSZone)
    (hd : s.details = some d) (htr : truthy d = true)
    (hz : t.zones = some zs) (hne : zs ≠ []) :
    zone_details truthy transport s = (d, s) ∧
    zone_records truthy transport rrsetsOf s = (rrsetsOf d, s) ∧
    server_zones transportZ t = (zs, t) := by
  have h1 : zone_details truthy transport s = (d, s) := by
    rw [zone_details, hd]
    simp [htr]
  have hie : zs.isEmpty = false := by
    cases zs with
    | nil => exact absurd rfl hne
    | cons a l => rfl
  refine ⟨h1, ?_, ?_⟩
  · rw [zone_records, h1]
  · rw [server_zones, hz]
    simp [hie]

/-- Claim C4 amended witness: a zone state caching a nonempty blob and
a server state caching a one-zone list. -/
theorem caches_stable_witness :
    ((⟨some [5], 3⟩ : ZoneSt (List Nat)).details = some [5]) ∧
    ((fun d : List Nat => !d.isEmpty) [5] = true) ∧
    ((⟨some [⟨"tld.".toList⟩], 1⟩ : ServerSt).zones
       = some [⟨"tld.".toList⟩]) ∧
    ([(⟨"tld.".toList⟩ : PDNSZone)] ≠ []) ∧
    (zone_details (fun d : List Nat => !d.isEmpty) (fun _ => [7])
        ⟨some [5], 3⟩ = ([5], ⟨some [5], 3⟩) ∧
     zone_records (fun d : List Nat => !d.isEmpty) (fun _ => [7])
        (fun d => d) ⟨some [5], 3⟩ = ([5], ⟨some [5], 3⟩) ∧
     server_zones (fun _ => []) ⟨some [⟨"tld.".toList⟩], 1⟩
        = ([⟨"tld.".toList⟩], ⟨some [⟨"tld.".toList⟩], 1⟩)) :=
  ⟨rfl, rfl, rfl, by decide,
    caches_stable _ _ _ _ _ _ _ _ rfl rfl rfl (by decide)⟩

theorem canonForce_ok (zoneName : List Char) (ct : String) (l : List RRSet)
    (h : ∀ rr ∈ l, ∃ rr2, ensure_canonical rr zoneName = .ok rr2) :
    ∃ body, canonForce zoneName ct l = .ok body ∧
      List.Forall₂ (fun rr b => ∃ rr2,
        ensure_canonical rr zoneName = .ok rr2 ∧
        b = { rr2 with changetype := ct }) l body := by
  induction l with
  | nil => exact ⟨[], rfl, List.Forall₂.nil⟩
  | cons rr rest ih =>
      obtain ⟨body, hb, hf⟩ := ih (fun x hx => h x (by simp [hx]))
      obtain ⟨rr2, hrr2⟩ := h rr (by simp)
      refine ⟨{ rr2 with changetype := ct } :: body, ?_, ?_⟩
      · rw [canonForce, hrr2, hb]
      · exact List.Forall₂.cons ⟨rr2, hrr2, rfl⟩ hf

/-- Claim C5: when every submitted rrset canonicalizes against the zone
name, create_records and delete_records return the transport outcome
unchanged (also when it is an error), the PATCH body is the list of
canonicalized rrsets with changetype forced to REPLACE resp. DELETE in
input order, and the details cache is reset either way, so the next
details read issues a fetch even after a failed PATCH. -/
theorem records_mutation_invalidates (zoneName : List Char)
    (rrsets : List RRSet) (patchResp : Except PyErr R) (s : ZoneSt D)
    (truthy : D → Bool) (transport : Nat → D)
    (hcanon : ∀ rr ∈ rrsets, ∃ rr2,
      ensure_canonical rr zoneName = .ok rr2) :
    ∃ bodyC bodyD,
      create_records zoneName rrsets patchResp s
        = (patchResp, ⟨none, s.fetchCount⟩, bodyC) ∧
      delete_records zoneName rrsets patchResp s
        = (patchResp, ⟨none, s.fetchCount⟩, bodyD) ∧
      List.Forall₂ (fun rr b => ∃ rr2,
        ensure_canonical rr zoneName = .ok rr2 ∧
        b = { rr2 with changetype := "REPLACE" }) rrsets bodyC ∧
      List.Forall₂ (fun rr b => ∃ rr2,
        ensure_canonical rr zoneName = .ok rr2 ∧
        b = { rr2 with changetype := "DELETE" }) rrsets bodyD ∧
      (zone_details truthy transport ⟨none, s.fetchCount⟩).2.fetchCount
        = s.fetchCount + 1 := by
  obtain ⟨bodyC, hbC, hfC⟩ := canonForce_ok zoneName "REPLACE" rrsets hcanon
  obtain ⟨bodyD, hbD, hfD⟩ := canonForce_ok zoneName "DELETE" rrsets hcanon
  refine ⟨bodyC, bodyD, ?_, ?_, hfC, hfD, rfl⟩
  · rw [create_records, hbC]
  · rw [delete_records, hbD]

/-- Claim C5 witness: one A rrset against zone tld. with a failing
PATCH outcome; the cache is reset all the same. -/
theorem records_mutation_invalidates_witness :
    (∀ rr ∈ [(⟨"www".toList, "A", "REPLACE", 3600, [], []⟩ : RRSet)],
      ∃ rr2, ensure_canonical rr "tld.".toList = .ok rr2) ∧
    (∃ bodyC bodyD,
      create_records "tld.".toList
          [(⟨"www".toList, "A", "REPLACE", 3600, [], []⟩ : RRSet)]
          (.error (.transportError "boom") : Except PyErr Nat)
          (⟨some [1], 4⟩ : ZoneSt (List Nat))
        = (.error (.transportError "boom"), ⟨none, 4⟩, bodyC) ∧
      delete_records "tld.".toList
          [(⟨"www".toList, "A", "REPLACE", 3600, [], []⟩ : RRSet)]
          (.error (.transportError "boom") : Except PyErr Nat)
          (⟨some [1], 4⟩ : ZoneSt (List Nat))
        = (.error (.transportError "boom"), ⟨none, 4⟩, bodyD) ∧
      List.Forall₂ (fun rr b => ∃ rr2,
        ensure_canonical rr "tld.".toList = .ok rr2 ∧
        b = { rr2 with changetype := "REPLACE" })
        [(⟨"www".toList, "A", "REPLACE", 3600, [], []⟩ : RRSet)] bodyC ∧
      List.Forall₂ (fun rr b => ∃ rr2,
        ensure_canonical rr "tld.".toList = .ok rr2 ∧
        b = { rr2 with changetype := "DELETE" })
        [(⟨"www".toList, "A", "REPLACE", 3600, [], []⟩ : RRSet)] bodyD ∧
      (zone_details (fun d : List Nat => !d.isEmpty) (fun _ => [9])
        ⟨none, 4⟩).2.fetchCount = 4 + 1) := by
  constructor
  · intro rr hrr
    simp only [List.mem_singleton] at hrr
    subst hrr
    exact ⟨⟨"www.tld.".toList, "A", "REPLACE", 3600, [], []⟩, by rfl⟩
  · exact records_mutation_invalidates _ _ _ _ _ _
      (by
        intro rr hrr
        simp only [List.mem_singleton] at hrr
        subst hrr
        exact ⟨⟨"www.tld.".toList, "A", "REPLACE", 3600, [], []⟩, by rfl⟩)

/-- Claim C8 counterexample: create_zone with a falsy transport
response leaves the populated zones cache in place, and the next zones
read returns the cached list without issuing a fetch — the source
resets _zones only inside the truthy branch (if zone_data:). -/
theorem create_zone_keeps_cache_cex :
    (create_zone ([] : List Nat) (fun d => !d.isEmpty) (fun _ => ⟨[]⟩)
        ⟨some [⟨"tld.".toList⟩], 1⟩).2.zones = some [⟨"tld.".toList⟩] ∧
    (server_zones (fun _ => [])
        (create_zone ([] : List Nat) (fun d => !d.isEmpty) (fun _ => ⟨[]⟩)
          ⟨some [⟨"tld.".toList⟩], 1⟩).2).2.fetchCount = 1 :=
  ⟨rfl, rfl⟩

/-- Claim C8 amended: delete_zone and restore_zone reset the zones
cache on every outcome, after which a zones read fetches; create_zone
resets it only when the transport response is truthy (a falsy response
leaves the cache in place, see the counterexample). -/
theorem zone_mutations_invalidate (resp : Except PyErr R) (respD respR : D)
    (truthy : D → Bool) (mkZ : D → PDNSZone) (s : ServerSt)
    (transport : Nat → List PDNSZone) (n : Nat) :
    (delete_zone resp s).2.zones = none ∧
    (restore_zone respR truthy mkZ s).2.zones = none ∧
    (truthy respD = true → (create_zone respD truthy mkZ s).2.zones = none) ∧
    (server_zones transport ⟨none, n⟩).2.fetchCount = n + 1 := by
  refine ⟨rfl, ?_, ?_, rfl⟩
  · rw [restore_zone]
    cases htr : truthy respR <;> simp [htr]
  · intro htr
    rw [create_zone, if_pos htr]

/-- Claim C8 amended witness: a truthy creation response against a
server with a populated cache. -/
theorem zone_mutations_invalidate_witness :
    ((fun d : List Nat => !d.isEmpty) [3] = true) ∧
    ((delete_zone (.error (.transportError "down"))
        (⟨some [⟨"tld.".toList⟩], 1⟩ : ServerSt)
      : Except PyErr Nat × ServerSt).2.zones = none ∧
     (restore_zone ([3] : List Nat) (fun d => !d.isEmpty) (fun _ => ⟨[]⟩)
        ⟨some [⟨"tld.".toList⟩], 1⟩).2.zones = none ∧
     ((fun d : List Nat => !d.isEmpty) [3] = true →
      (create_zone ([3] : List Nat) (fun d => !d.isEmpty) (fun _ => ⟨[]⟩)
        ⟨some [⟨"tld.".toList⟩], 1⟩).2.zones = none) ∧
     (server_zones (fun _ => [⟨"tld.".toList⟩]) ⟨none, 1⟩).2.fetchCount
       = 1 + 1) :=
  ⟨rfl, zone_mutations_invalidate _ _ _ _ _ _ _ _⟩

/-! ### The suggest_zone search (claims C1 and C10) -/

theorem find?_congrOn {α : Type} (p q : α → Bool) (l : List α)
    (h : ∀ a ∈ l, p a = q a) : l.find? p = l.find? q := by
  induction l with
  | nil => rfl
  | cons a l ih =>
      have ha := h a (by simp)
      cases hqa : q a with
      | true =>
          rw [List.find?_cons_of_pos l (by simp [ha, hqa]),
            List.find?_cons_of_pos l (by simp [hqa])]
      | false =>
          rw [List.find?_cons_of_neg l (by simp [ha, hqa]),
            List.find?_cons_of_neg l (by simp [hqa])]
          exact ih (fun x hx => h x (by simp [hx]))

/-- The best_match accumulation of the suggest_zone loop, restricted to
the candidate list. -/
def pickBest : Option PDNSZone → List PDNSZone → Option PDNSZone
  | best, [] => best
  | none, z :: zs => pickBest (some z) zs
  | some b, z :: zs =>
      pickBest (some (if z.name.length > b.name.length then z else b)) zs

theorem foldl_suggestStep_eq_pickBest (rName : List Char)
    (zones : List PDNSZone) :
    ∀ best, zones.foldl (suggestStep rName) best
      = pickBest best (zoneCandidates zones rName) := by
  induction zones with
  | nil => intro best; cases best <;> rfl
  | cons z zs ih =>
      intro best
      by_cases hc : ('.' :: z.name) <:+ rName
      · have hfc : zoneCandidates (z :: zs) rName
            = z :: zoneCandidates zs rName := by
          simp [zoneCandidates, hc]
        have hstep : suggestStep rName best z =
            (match best with
             | none => some z
             | some b => some (if z.name.length > b.name.length then z else b)) := by
          cases best with
          | none => simp [suggestStep, hc]
          | some b =>
              by_cases hl : z.name.length > b.name.length
              · simp [suggestStep, hc, hl]
              · simp [suggestStep, hc, hl]
        rw [List.foldl_cons, hfc, hstep]
        cases best with
        | none => rw [pickBest]; exact ih _
        | some b => rw [pickBest]; exact ih _
      · have hfc : zoneCandidates (z :: zs) rName
            = zoneCandidates zs rName := by
          simp [zoneCandidates, hc]
        have hstep : suggestStep rName best z = best := by
          simp [suggestStep, hc]
        rw [List.foldl_cons, hfc, hstep]
        exact ih best

theorem firstLongest_cons_cons (b z : PDNSZone) (zs : List PDNSZone) :
    firstLongest (b :: z :: zs)
      = firstLongest ((if z.name.length > b.name.length then z else b) :: zs) := by
  by_cases hzb : z.name.length > b.name.length
  · rw [if_pos hzb]
    have hcong : ∀ c ∈ (b :: z :: zs),
        ((b :: z :: zs).all (fun w => decide (w.name.length ≤ c.name.length)))
        = ((z :: zs).all (fun w => decide (w.name.length ≤ c.name.length))) := by
      intro c _
      simp only [List.all_cons]
      cases hX : ((decide (z.name.length ≤ c.name.length)) &&
          zs.all (fun w => decide (w.name.length ≤ c.name.length))) with
      | false => simp [hX]
      | true =>
          have hz2 : z.name.length ≤ c.name.length := by
            have h3 := (Bool.and_eq_true _ _).mp hX
            simpa using h3.1
          have hb2 : b.name.length ≤ c.name.length := by omega
          simp [hX, hb2]
    rw [firstLongest, firstLongest, find?_congrOn _ _ _ hcong]
    have hqb : ¬ (((z :: zs).all
        (fun w => decide (w.name.length ≤ b.name.length))) = true) := by
      have h4 : ¬ (z.name.length ≤ b.name.length) := by omega
      simp [List.all_cons, h4]
    rw [List.find?_cons_of_neg _ (by simpa using hqb)]
  · rw [if_neg hzb]
    have hle : z.name.length ≤ b.name.length := by omega
    have hcong : ∀ c ∈ (b :: z :: zs),
        ((b :: z :: zs).all (fun w => decide (w.name.length ≤ c.name.length)))
        = ((b :: zs).all (fun w => decide (w.name.length ≤ c.name.length))) := by
      intro c _
      simp only [List.all_cons]
      cases hgb : decide (b.name.length ≤ c.name.length) with
      | false => simp [hgb]
      | true =>
          have hbc : b.name.length ≤ c.name.length := of_decide_eq_true hgb
          have hzc : z.name.length ≤ c.name.length := by omega
          simp [hgb, hzc]
    rw [firstLongest, firstLongest, find?_congrOn _ _ _ hcong]
    cases hqb : ((b :: zs).all
        (fun w => decide (w.name.length ≤ b.name.length))) with
    | true =>
        rw [List.find?_cons_of_pos _ (by simpa using hqb),
          List.find?_cons_of_pos _ (by simpa using hqb)]
    | false =>
        have hqz : ((b :: zs).all
            (fun w => decide (w.name.length ≤ z.name.length))) = false := by
          obtain ⟨w, hwmem, hw⟩ := List.all_eq_false.mp hqb
          refine List.all_eq_false.mpr ⟨w, hwmem, ?_⟩
          simp only [decide_eq_true_eq] at hw ⊢
          omega
        rw [List.find?_cons_of_neg _ (by simpa using hqb),
          List.find?_cons_of_neg _ (by simpa using hqz),
          List.find?_cons_of_neg _ (by simpa using hqb)]

theorem pickBest_some_eq_firstLongest (zs : List PDNSZone) :
    ∀ b, pickBest (some b) zs = firstLongest (b :: zs) := by
  induction zs with
  | nil =>
      intro b
      rw [pickBest, firstLongest]
      rw [List.find?_cons_of_pos _ (by simp)]
  | cons z zs ih =>
      intro b
      rw [pickBest, firstLongest_cons_cons, ← ih]

theorem pickBest_none_eq_firstLongest (l : List PDNSZone) :
    pickBest none l = firstLongest l := by
  cases l with
  | nil => rfl
  | cons z zs => rw [pickBest, pickBest_some_eq_firstLongest, firstLongest]

/-- Claim C1: for a canonical record name, suggest_zone returns the
first zone in listing order whose name has maximal length among the
candidates — the zones z with "." + z.name a suffix of the record name —
and returns None when there is no candidate; being a pure function of
the listed zones, repeated calls agree. -/
theorem suggest_zone_first_longest (zones : List PDNSZone)
    (rName : List Char) (hr : ['.'] <:+ rName) :
    suggest_zone zones rName
      = .ok (firstLongest (zoneCandidates zones rName)) ∧
    (zoneCandidates zones rName = [] → suggest_zone zones rName = .ok none) := by
  have h1 : suggest_zone zones rName
      = .ok (firstLongest (zoneCandidates zones rName)) := by
    rw [suggest_zone, if_neg (not_not_intro hr),
      foldl_suggestStep_eq_pickBest, pickBest_none_eq_firstLongest]
  refine ⟨h1, fun hemp => ?_⟩
  rw [h1, hemp]
  rfl

/-- Claim C1 witness: the spec's example — zones tld., test.tld.,
another.tld. and record a.b.test.tld.; the unique longest candidate is
test.tld., and est.tld. is rightly not a candidate. -/
theorem suggest_zone_first_longest_witness :
    (['.'] <:+ "a.b.test.tld.".toList) ∧
    (suggest_zone [⟨"tld.".toList⟩, ⟨"est.tld.".toList⟩, ⟨"test.tld.".toList⟩]
        "a.b.test.tld.".toList
      = .ok (firstLongest (zoneCandidates
          [⟨"tld.".toList⟩, ⟨"est.tld.".toList⟩, ⟨"test.tld.".toList⟩]
          "a.b.test.tld.".toList)) ∧
     (zoneCandidates [⟨"tld.".toList⟩, ⟨"est.tld.".toList⟩, ⟨"test.tld.".toList⟩]
        "a.b.test.tld.".toList = [] →
      suggest_zone [⟨"tld.".toList⟩, ⟨"est.tld.".toList⟩, ⟨"test.tld.".toList⟩]
        "a.b.test.tld.".toList = .ok none)) :=
  ⟨by decide, suggest_zone_first_longest _ _ (by decide)⟩

/-- Claim C10: a zone whose name equals the record name exactly is
never a candidate of suggest_zone, and when every zone whose name
suffix-matches the record name is named exactly the record name,
suggest_zone returns None. -/
theorem suggest_zone_no_apex_match (zones : List PDNSZone)
    (rName : List Char) (hr : ['.'] <:+ rName)
    (honly : ∀ z ∈ zones, z.name <:+ rName → z.name = rName) :
    (∀ z ∈ zones, z.name = rName → ¬ (('.' :: z.name) <:+ rName)) ∧
    suggest_zone zones rName = .ok none := by
  have hnocand : ∀ z ∈ zones, ¬ (('.' :: z.name) <:+ rName) := by
    intro z hz hcand
    have hsub : z.name <:+ rName :=
      (List.suffix_cons '.' z.name).trans hcand
    have heq : z.name = rName := honly z hz hsub
    have hlen : ('.' :: z.name).length ≤ rName.length :=
      hcand.length_le
    rw [heq] at hlen
    simp at hlen
  constructor
  · exact fun z hz _ => hnocand z hz
  · have hemp : zoneCandidates zones rName = [] := by
      rw [zoneCandidates, List.filter_eq_nil_iff]
      intro z hz
      simpa using hnocand z hz
    rw [suggest_zone, if_neg (not_not_intro hr),
      foldl_suggestStep_eq_pickBest, hemp]
    rfl

/-- Claim C10 witness: the only suffix-matching zone is named exactly
like the record. -/
theorem suggest_zone_no_apex_match_witness :
    (['.'] <:+ "a.tld.".toList) ∧
    (∀ z ∈ [(⟨"a.tld.".toList⟩ : PDNSZone), ⟨"other.org.".toList⟩],
      z.name <:+ "a.tld.".toList → z.name = "a.tld.".toList) ∧
    ((∀ z ∈ [(⟨"a.tld.".toList⟩ : PDNSZone), ⟨"other.org.".toList⟩],
        z.name = "a.tld.".toList →
          ¬ (('.' :: z.name) <:+ "a.tld.".toList)) ∧
     suggest_zone [(⟨"a.tld.".toList⟩ : PDNSZone), ⟨"other.org.".toList⟩]
        "a.tld.".toList = .ok none) :=
  ⟨by decide, by decide,
    suggest_zone_no_apex_match _ _ (by decide) (by decide)⟩

end PowerDNS
